import Mathlib

set_option maxRecDepth 8192

/-!
Shallow embedding of the `@hoajs/etag` middleware (src/digest.ts and
src/index.ts).

Modelling conventions:
* JS `Uint8Array` buffers are `List Nat` (each entry one byte).
* A `ReadableStream<Uint8Array>` that has been fully read is the ordered,
  finite list of the chunks its reader delivered; a `null` body is `none`.
* JS strings are Lean `String`s; the few string primitives the source uses
  (`trim`, `toLowerCase`, `split(/\s*,\s*/)`, `replace(/^W\//, '')`,
  `padStart`, `join('')`) are re-implemented character-exactly on `.data`.
* The hash capability `(body: Uint8Array) => ArrayBuffer` is a pure function
  `List Nat → List Nat` (its output bytes); asynchrony is irrelevant to the
  values computed and is dropped.
* Hoa's header storage is a case-insensitive map; it is modelled as an
  association list whose keys are the (lowercase-normalized) header names,
  so `ctx.res.get('ETag')` is a lookup of the key `"etag"` and the
  `for (const h in ctx.res.headers)` loop enumerates exactly those keys.
-/

namespace HoaEtag

/-! ## src/digest.ts -/

/-- Function `mergeBuffers(buffer1, buffer2)` from src/digest.ts: if `buffer1` is
`undefined` return `buffer2`, otherwise the concatenation
`buffer1 ++ buffer2` (a fresh `Uint8Array` holding both). Note that in JS
`!buffer1` is true only for `undefined` here — an empty `Uint8Array` is
truthy. -/
def mergeBuffers (buffer1 : Option (List Nat)) (buffer2 : List Nat) : List Nat :=
  match buffer1 with
  | none => buffer2
  | some b1 => b1 ++ buffer2

/-- The reader loop of `generateDigest`: starting from
`accumulated = undefined`, each chunk delivered by the stream is merged via
`mergeBuffers` until the stream reports `done`. -/
def readChunks : List (List Nat) → Option (List Nat) → Option (List Nat)
  | [], accumulated => accumulated
  | value :: rest, accumulated => readChunks rest (some (mergeBuffers accumulated value))

/-- JS `x.toString(16).padStart(2, '0')`: lowercase hexadecimal digits of
`x` with no leading zeros, left-padded with `'0'` to length at least 2. -/
def hexByte (x : Nat) : String :=
  let s := (Nat.toDigits 16 x).asString
  String.mk (List.replicate (2 - s.length) '0') ++ s

/-- JS `Array.prototype.join('')`. -/
def joinAll : List String → String
  | [] => ""
  | s :: rest => s ++ joinAll rest

/-- The hex encoding applied to the raw hash output:
`.map((x) => x.toString(16).padStart(2, '0')).join('')`. -/
def hexEncode (bytes : List Nat) : String :=
  joinAll (bytes.map hexByte)

/-- Function `generateDigest(stream, generator)` from src/digest.ts:
`null` for a `null` stream; otherwise drain the stream, and if no chunk was
ever delivered (`accumulated` still `undefined`) return `null`, else hash
the accumulated buffer once and hex-encode the result. -/
def generateDigest (stream : Option (List (List Nat)))
    (generator : List Nat → List Nat) : Option String :=
  match stream with
  | none => none
  | some chunks =>
    match readChunks chunks none with
    | none => none
    | some accumulated => some (hexEncode (generator accumulated))

/-! ## src/index.ts -/

/-- Constant `RETAINED_304_HEADERS` from src/index.ts. -/
def RETAINED_304_HEADERS : List String :=
  ["cache-control", "content-location", "date", "etag", "expires", "vary"]

/-- Embeds `tag.replace(/^W\//, '')` on the character list: remove one leading
`"W/"` (case-sensitively) if present. -/
def stripWeakChars : List Char → List Char
  | c1 :: c2 :: rest => if c1 = 'W' && c2 = '/' then rest else c1 :: c2 :: rest
  | l => l

/-- Function `stripWeak(tag)` from src/index.ts. -/
def stripWeak (tag : String) : String :=
  String.mk (stripWeakChars tag.data)

/-- Character-level engine of JS `s.split(/\s*,\s*/)`: `cur` is the current
segment accumulated in reverse; `skipWs` is true while the `\s*` that
follows a just-consumed comma is still being matched. On a comma the
current segment is emitted with its trailing whitespace stripped (that
whitespace belongs to the separator's leading `\s*`). -/
def splitSepsAux : List Char → Bool → List Char → List (List Char)
  | [], _, cur => [cur.reverse]
  | c :: rest, skipWs, cur =>
    if c = ',' then (cur.dropWhile Char.isWhitespace).reverse :: splitSepsAux rest true []
    else if skipWs && c.isWhitespace then splitSepsAux rest true cur
    else splitSepsAux rest false (c :: cur)

/-- Embeds `ifNoneMatch.split(/\s*,\s*/)` from `etagMatches`. -/
def splitINM (s : String) : List String :=
  (splitSepsAux s.data false []).map String.mk

/-- Function `etagMatches(etag, ifNoneMatch, method)` from src/index.ts:
`false` for a `null` header; the literal `'*'` matches any representation
but only for GET/HEAD; otherwise some comma-separated candidate must equal
the response tag after weak-prefix stripping on both sides. -/
def etagMatches (etag : String) (ifNoneMatch : Option String) (method : String) : Bool :=
  match ifNoneMatch with
  | none => false
  | some inm =>
    if inm = "*" then method == "GET" || method == "HEAD"
    else (splitINM inm).any fun t => stripWeak t == stripWeak etag

/-- JS `String.prototype.trim()`: whitespace removed from both ends. -/
def jsTrim (s : String) : String :=
  String.mk (((s.data.dropWhile Char.isWhitespace).reverse.dropWhile Char.isWhitespace).reverse)

/-- JS `String.prototype.toLowerCase()` (ASCII-relevant part). -/
def jsToLower (s : String) : String :=
  String.mk (s.data.map Char.toLower)

/-- Header storage of a Hoa response: keys are the lowercase-normalized
header names (Hoa's storage is case-insensitive). -/
abbrev Headers := List (String × String)

/-- Embeds `ctx.res.get(name)` — lookup by (normalized) header name. -/
def headersGet (headers : Headers) (name : String) : Option String :=
  (headers.find? fun p => p.1 == name).map Prod.snd

/-- Embeds `ctx.res.set(name, value)` — replace the entry if the name is present,
otherwise append it. -/
def headersSet (headers : Headers) (name value : String) : Headers :=
  if headers.any fun p => p.1 == name then
    headers.map fun p => if p.1 == name then (name, value) else p
  else headers ++ [(name, value)]

/-- The deletion loop
`for (const h in ctx.res.headers) if (!retainedHeaders.includes(h)) ctx.res.delete(h)`:
only the headers whose name is in `retainedHeaders` survive. -/
def headersDeleteNotRetained (headers : Headers) (retainedHeaders : List String) : Headers :=
  headers.filter fun p => retainedHeaders.contains p.1

/-- The response view the middleware mutates: status, headers, body (the
body as the chunk list its stream delivers, or `none` for a null body). -/
structure HoaResponse where
  status : Nat
  headers : Headers
  body : Option (List (List Nat))
deriving DecidableEq

/-- The guard of the downgrade branch in `etagMiddleware`:
`status >= 200 && status < 300 && etagMatches(etag, ifNoneMatch, method)`. -/
def should304 (etag : String) (ifNoneMatch : Option String) (method : String)
    (status : Nat) : Bool :=
  decide (200 ≤ status) && decide (status < 300) && etagMatches etag ifNoneMatch method

/-- Embeds the tag formatting `weak ? ... : ...` of src/index.ts: the digest in double quotes, with a W/ prefix when weak is set. -/
def formatTag (weak : Bool) (hash : String) : String :=
  if weak then "W/\"" ++ hash ++ "\"" else "\"" ++ hash ++ "\""

/-- JS truthiness of `ctx.res.get('ETag')`: `null`/`undefined` and the
empty string are falsy, every other string is truthy. -/
def getTruthy : Option String → Option String
  | none => none
  | some s => if s = "" then none else some s

/-- The downgrade branch: `ctx.res.body = null; ctx.res.status = 304;`
followed by the retained-header deletion loop. -/
def downgrade304 (retainedHeaders : List String) (res : HoaResponse) : HoaResponse :=
  { status := 304
    headers := headersDeleteNotRetained res.headers retainedHeaders
    body := none }

/-- Tail of `etagMiddleware` once the tag is determined:
`ctx.res.set('ETag', etag)` followed by the conditional 304 downgrade. -/
def finalize (retainedHeaders : List String) (method : String)
    (ifNoneMatch : Option String) (etagVal : String) (res : HoaResponse) : HoaResponse :=
  let res' : HoaResponse := { res with headers := headersSet res.headers "etag" etagVal }
  if should304 etagVal ifNoneMatch method res'.status then downgrade304 retainedHeaders res'
  else res'

/-- Function `etagMiddleware` from src/index.ts, as the transformation it applies to
the response produced by the downstream handler. `retainedHeaders`, `weak`
and `generator` are the values captured at construction time; `method` and
`ifNoneMatchRaw` are read from the request before `next()` runs. -/
def etagMiddleware (retainedHeaders : List String) (weak : Bool)
    (generator : Option (List Nat → List Nat)) (method : String)
    (ifNoneMatchRaw : Option String) (res : HoaResponse) : HoaResponse :=
  let ifNoneMatch := ifNoneMatchRaw.map jsTrim
  match getTruthy (headersGet res.headers "etag") with
  | some etagVal => finalize retainedHeaders method ifNoneMatch etagVal res
  | none =>
    match generator with
    | none => res
    | some g =>
      match generateDigest res.body g with
      | none => res
      | some hash => finalize retainedHeaders method ifNoneMatch (formatTag weak hash) res

/-- Function `initializeGenerator(generator)` from src/index.ts: a custom generator
wins; otherwise the platform SHA-1 bound to `crypto.subtle` when that
capability exists (`platformSha1 = none` models a host without
`crypto?.subtle`). -/
def initializeGenerator (generator : Option (List Nat → List Nat))
    (platformSha1 : Option (List Nat → List Nat)) : Option (List Nat → List Nat) :=
  match generator with
  | some g => some g
  | none => platformSha1

/-- Embeds `retainedHeaders = Array.isArray(options.retainedHeaders) ?
options.retainedHeaders.map((h) => h.toLowerCase()) : RETAINED_304_HEADERS`
resolution in the `etag` constructor. -/
def resolveRetained : Option (List String) → List String
  | some l => l.map jsToLower
  | none => RETAINED_304_HEADERS

/-- The 304 condition exactly as claim C1 words it (spec-side definition,
kept for comparison with the code-side `should304`): status in [200,300)
AND ((the trimmed If-None-Match equals the literal `*` AND the method is
GET or HEAD) OR (some candidate obtained by splitting If-None-Match on
commas with optional surrounding whitespace, after stripping a leading
`W/` prefix from it and from the response tag, is string-equal to the
stripped tag)). -/
def c1ClaimCond (etag : String) (ifNoneMatchRaw : Option String) (method : String)
    (status : Nat) : Bool :=
  decide (200 ≤ status) && decide (status < 300) &&
    (match ifNoneMatchRaw with
     | none => false
     | some raw =>
       (jsTrim raw == "*" && (method == "GET" || method == "HEAD")) ||
         (splitINM (jsTrim raw)).any fun t => stripWeak t == stripWeak etag)

/-! ## Helper lemmas -/

theorem string_mk_data (s : String) : String.mk s.data = s := rfl

theorem readChunks_some (chunks : List (List Nat)) (acc : List Nat) :
    readChunks chunks (some acc) = some (acc ++ chunks.flatten) := by
  induction chunks generalizing acc with
  | nil => simp [readChunks]
  | cons c rest ih => simp [readChunks, mergeBuffers, ih, List.append_assoc]

theorem readChunks_of_ne_nil (chunks : List (List Nat)) (h : chunks ≠ []) :
    readChunks chunks none = some chunks.flatten := by
  cases chunks with
  | nil => exact absurd rfl h
  | cons c rest => simp [readChunks, mergeBuffers, readChunks_some]

theorem generateDigest_of_ne_nil (chunks : List (List Nat)) (g : List Nat → List Nat)
    (h : chunks ≠ []) :
    generateDigest (some chunks) g = some (hexEncode (g chunks.flatten)) := by
  simp [generateDigest, readChunks_of_ne_nil chunks h]

theorem hexByte_length : ∀ x < 256, (hexByte x).length = 2 := by decide

theorem hexEncode_length (bytes : List Nat) (h : ∀ b ∈ bytes, b < 256) :
    (hexEncode bytes).length = 2 * bytes.length := by
  induction bytes with
  | nil => rfl
  | cons b bs ih =>
    have hb : (hexByte b).length = 2 := hexByte_length b (h b (List.mem_cons_self b bs))
    have hbs := ih fun x hx => h x (List.mem_cons_of_mem b hx)
    have : hexEncode (b :: bs) = hexByte b ++ hexEncode bs := rfl
    rw [this, String.length_append, hb, hbs, List.length_cons]
    omega

theorem stripWeakChars_weak (l : List Char) : stripWeakChars ('W' :: '/' :: l) = l := by
  simp [stripWeakChars]

theorem stripWeak_drops_weak_marker (t : String) : stripWeak ("W/" ++ t) = t := by
  have h : ("W/" ++ t).data = 'W' :: '/' :: t.data := by
    rw [String.data_append]; rfl
  rw [stripWeak, h, stripWeakChars_weak, string_mk_data]

theorem splitSepsAux_no_comma (l : List Char) (cur : List Char) (h : ',' ∉ l) :
    splitSepsAux l false cur = [cur.reverse ++ l] := by
  induction l generalizing cur with
  | nil => simp [splitSepsAux]
  | cons c rest ih =>
    have hc : ¬(c = ',') := fun hh => h (hh ▸ List.mem_cons_self c rest)
    have hr : ',' ∉ rest := fun hh => h (List.mem_cons_of_mem c hh)
    simp [splitSepsAux, hc, ih _ hr]

theorem splitINM_no_comma (s : String) (h : ',' ∉ s.data) : splitINM s = [s] := by
  simp [splitINM, splitSepsAux_no_comma _ _ h, string_mk_data]

theorem headersGet_filter_of_contains (hs : Headers) (retained : List String) (n : String)
    (h : retained.contains n = true) :
    headersGet (headersDeleteNotRetained hs retained) n = headersGet hs n := by
  induction hs with
  | nil => rfl
  | cons p hs ih =>
    rcases p with ⟨k, v⟩
    by_cases hk : k = n
    · subst hk
      have hmem : k ∈ retained := List.mem_of_elem_eq_true h
      have hfil : headersDeleteNotRetained ((k, v) :: hs) retained
          = (k, v) :: headersDeleteNotRetained hs retained := by
        simp [headersDeleteNotRetained, List.filter_cons, hmem]
      rw [hfil]
      unfold headersGet
      rw [List.find?_cons_of_pos _ (by simp), List.find?_cons_of_pos _ (by simp)]
    · by_cases hkr : retained.contains k = true
      · have hmem : k ∈ retained := List.mem_of_elem_eq_true hkr
        have hfil : headersDeleteNotRetained ((k, v) :: hs) retained
            = (k, v) :: headersDeleteNotRetained hs retained := by
          simp [headersDeleteNotRetained, List.filter_cons, hmem]
        rw [hfil]
        unfold headersGet
        rw [List.find?_cons_of_neg _ (by simp [hk]), List.find?_cons_of_neg _ (by simp [hk])]
        exact ih
      · have hmem : k ∉ retained := fun hm => hkr (List.elem_eq_true_of_mem hm)
        have hfil : headersDeleteNotRetained ((k, v) :: hs) retained
            = headersDeleteNotRetained hs retained := by
          simp [headersDeleteNotRetained, List.filter_cons, hmem]
        rw [hfil, ih]
        unfold headersGet
        rw [List.find?_cons_of_neg _ (by simp [hk])]

theorem headersGet_filter_of_not_contains (hs : Headers) (retained : List String)
    (n : String) (h : retained.contains n = false) :
    headersGet (headersDeleteNotRetained hs retained) n = none := by
  induction hs with
  | nil => rfl
  | cons p hs ih =>
    rcases p with ⟨k, v⟩
    by_cases hkr : retained.contains k = true
    · have hmem : k ∈ retained := List.mem_of_elem_eq_true hkr
      have hfil : headersDeleteNotRetained ((k, v) :: hs) retained
          = (k, v) :: headersDeleteNotRetained hs retained := by
        simp [headersDeleteNotRetained, List.filter_cons, hmem]
      have hk : ¬(k = n) := by
        intro hh
        rw [hh, h] at hkr
        exact Bool.false_ne_true hkr
      rw [hfil]
      unfold headersGet
      rw [List.find?_cons_of_neg _ (by simp [hk])]
      exact ih
    · have hmem : k ∉ retained := fun hm => hkr (List.elem_eq_true_of_mem hm)
      have hfil : headersDeleteNotRetained ((k, v) :: hs) retained
          = headersDeleteNotRetained hs retained := by
        simp [headersDeleteNotRetained, List.filter_cons, hmem]
      rw [hfil]
      exact ih

theorem headersGet_set_self (hs : Headers) (n v : String) :
    headersGet (headersSet hs n v) n = some v := by
  unfold headersSet headersGet
  by_cases hex : (hs.any fun p => p.1 == n) = true
  · rw [if_pos hex, List.find?_map]
    have hpred : ((fun p : String × String => p.1 == n) ∘
        (fun p : String × String => if p.1 == n then (n, v) else p))
        = fun p : String × String => p.1 == n := by
      funext p
      by_cases hp : (p.1 == n) = true <;> simp [Function.comp, hp]
    rw [hpred]
    obtain ⟨a, ha, hpa⟩ := List.any_eq_true.mp hex
    have hsome : ∃ b, hs.find? (fun p : String × String => p.1 == n) = some b := by
      rw [← Option.isSome_iff_exists, List.find?_isSome]
      exact ⟨a, ha, hpa⟩
    obtain ⟨b, hb⟩ := hsome
    have hpb : (b.1 == n) = true := by
      have hx := List.find?_some hb
      simpa using hx
    rw [hb]
    have hbn : b.1 = n := by simpa using hpb
    simp [hbn]
  · rw [if_neg hex, List.find?_append]
    have hnone : hs.find? (fun p : String × String => p.1 == n) = none := by
      rw [List.find?_eq_none]
      intro x hx hpx
      exact hex (List.any_eq_true.mpr ⟨x, hx, hpx⟩)
    rw [hnone]
    simp

theorem headersGet_set_of_ne (hs : Headers) (n v m : String) (hm : ¬(m = n)) :
    headersGet (headersSet hs n v) m = headersGet hs m := by
  unfold headersSet headersGet
  by_cases hex : (hs.any fun p => p.1 == n) = true
  · rw [if_pos hex, List.find?_map]
    have hpred : ((fun p : String × String => p.1 == m) ∘
        (fun p : String × String => if p.1 == n then (n, v) else p))
        = fun p : String × String => p.1 == m := by
      funext p
      by_cases hp : (p.1 == n) = true
      · have hpn : p.1 = n := by simpa using hp
        simp [Function.comp, hp, hpn]
      · simp [Function.comp, hp]
    rw [hpred]
    cases hfind : hs.find? (fun p : String × String => p.1 == m) with
    | none => simp
    | some a =>
      have hpa : (a.1 == m) = true := by
        have hx := List.find?_some hfind
        simpa using hx
      have ham : a.1 = m := by simpa using hpa
      have hne : ¬(a.1 = n) := by
        rw [ham]
        exact hm
      simp [hne]
  · rw [if_neg hex, List.find?_append]
    have hsingle : ([(n, v)].find? fun p : String × String => p.1 == m) = none := by
      simp only [List.find?]
      have : ((n, v).1 == m) = false := by
        simpa using fun hh => hm hh.symm
      simp [this]
    rw [hsingle]
    cases hs.find? (fun p : String × String => p.1 == m) <;> simp

theorem etagMiddleware_preexisting (retained : List String) (weak : Bool)
    (g : Option (List Nat → List Nat)) (method : String) (inmRaw : Option String)
    (res : HoaResponse) (e : String)
    (hpre : headersGet res.headers "etag" = some e) (hne : ¬(e = "")) :
    etagMiddleware retained weak g method inmRaw res
      = finalize retained method (inmRaw.map jsTrim) e res := by
  unfold etagMiddleware
  rw [hpre]
  simp [getTruthy, hne]

theorem etagMiddleware_computed (retained : List String) (weak : Bool)
    (g : List Nat → List Nat) (method : String) (inmRaw : Option String)
    (res : HoaResponse) (d : String)
    (hpre : getTruthy (headersGet res.headers "etag") = none)
    (hd : generateDigest res.body g = some d) :
    etagMiddleware retained weak (some g) method inmRaw res
      = finalize retained method (inmRaw.map jsTrim) (formatTag weak d) res := by
  unfold etagMiddleware
  rw [hpre]
  show (match generateDigest res.body g with
      | none => res
      | some hash => finalize retained method (inmRaw.map jsTrim) (formatTag weak hash) res)
      = finalize retained method (inmRaw.map jsTrim) (formatTag weak d) res
  rw [hd]

theorem finalize_status (retained : List String) (method : String)
    (inm : Option String) (etagVal : String) (res : HoaResponse) :
    (finalize retained method inm etagVal res).status
      = if should304 etagVal inm method res.status then 304 else res.status := by
  show (if should304 etagVal inm method res.status then downgrade304 retained
        { res with headers := headersSet res.headers "etag" etagVal }
      else { res with headers := headersSet res.headers "etag" etagVal }).status
      = if should304 etagVal inm method res.status then 304 else res.status
  by_cases hc : should304 etagVal inm method res.status = true
  · rw [if_pos hc, if_pos hc]
    rfl
  · rw [if_neg hc, if_neg hc]

theorem headersGet_finalize_etag (retained : List String) (method : String)
    (inm : Option String) (etagVal : String) (res : HoaResponse)
    (h : retained.contains "etag" = true) :
    headersGet (finalize retained method inm etagVal res).headers "etag" = some etagVal := by
  show headersGet (if should304 etagVal inm method res.status then downgrade304 retained
        { res with headers := headersSet res.headers "etag" etagVal }
      else { res with headers := headersSet res.headers "etag" etagVal }).headers "etag"
      = some etagVal
  by_cases hc : should304 etagVal inm method res.status = true
  · rw [if_pos hc]
    unfold downgrade304
    rw [headersGet_filter_of_contains _ _ _ h]
    exact headersGet_set_self res.headers "etag" etagVal
  · rw [if_neg hc]
    exact headersGet_set_self res.headers "etag" etagVal

/-- Claim C6: a non-empty ETag header already set by the downstream handler
is authoritative — the middleware's result does not depend on the configured
digest generator at all (so nothing is recomputed or overwritten), the final
ETag header still carries the pre-existing value, and that value is the one
the 304 condition is evaluated with. -/
theorem c6_preexisting_etag_authoritative (weak : Bool)
    (g1 g2 : Option (List Nat → List Nat)) (method : String) (inmRaw : Option String)
    (res : HoaResponse) (e : String)
    (hpre : headersGet res.headers "etag" = some e) (hne : ¬(e = "")) :
    etagMiddleware RETAINED_304_HEADERS weak g1 method inmRaw res
      = etagMiddleware RETAINED_304_HEADERS weak g2 method inmRaw res ∧
    headersGet (etagMiddleware RETAINED_304_HEADERS weak g1 method inmRaw res).headers "etag"
      = some e ∧
    (etagMiddleware RETAINED_304_HEADERS weak g1 method inmRaw res).status
      = if should304 e (inmRaw.map jsTrim) method res.status then 304 else res.status := by
  rw [etagMiddleware_preexisting _ weak g1 _ _ _ _ hpre hne,
      etagMiddleware_preexisting _ weak g2 _ _ _ _ hpre hne]
  exact ⟨rfl, headersGet_finalize_etag _ _ _ _ _ (by decide), finalize_status _ _ _ _ _⟩

theorem c6_preexisting_etag_authoritative_witness :
    etagMiddleware RETAINED_304_HEADERS false (some fun _ => [0]) "GET" (some "\"abc\"")
        ⟨200, [("etag", "\"abc\"")], some [[1]]⟩
      = etagMiddleware RETAINED_304_HEADERS false none "GET" (some "\"abc\"")
        ⟨200, [("etag", "\"abc\"")], some [[1]]⟩ ∧
    headersGet (etagMiddleware RETAINED_304_HEADERS false (some fun _ => [0]) "GET"
        (some "\"abc\"") ⟨200, [("etag", "\"abc\"")], some [[1]]⟩).headers "etag"
      = some "\"abc\"" ∧
    (etagMiddleware RETAINED_304_HEADERS false (some fun _ => [0]) "GET" (some "\"abc\"")
        ⟨200, [("etag", "\"abc\"")], some [[1]]⟩).status
      = if should304 "\"abc\"" ((some "\"abc\"").map jsTrim) "GET" 200 then 304 else 200 :=
  c6_preexisting_etag_authoritative false (some fun _ => [0]) none "GET" (some "\"abc\"")
    ⟨200, [("etag", "\"abc\"")], some [[1]]⟩ "\"abc\"" (by decide) (by decide)

/-- Claim C8: when the response carries no (truthy) pre-existing ETag header
and no digest generator is configured — neither a custom one nor a platform
cryptographic capability at construction (`initializeGenerator none none`) —
the middleware terminates leaving the response entirely unmodified (status,
headers and body), even when If-None-Match would otherwise match. -/
theorem c8_no_generator_leaves_response_unmodified (retained : List String) (weak : Bool)
    (method : String) (inmRaw : Option String) (res : HoaResponse)
    (hpre : getTruthy (headersGet res.headers "etag") = none) :
    etagMiddleware retained weak (initializeGenerator none none) method inmRaw res = res := by
  unfold etagMiddleware initializeGenerator
  rw [hpre]

theorem c8_no_generator_witness :
    etagMiddleware ["date"] true (initializeGenerator none none) "GET" (some "*")
      ⟨200, [("content-type", "text/plain")], some [[1, 2]]⟩
      = ⟨200, [("content-type", "text/plain")], some [[1, 2]]⟩ :=
  c8_no_generator_leaves_response_unmodified ["date"] true "GET" (some "*")
    ⟨200, [("content-type", "text/plain")], some [[1, 2]]⟩ (by decide)

theorem stripWeakChars_lower (l : List Char) :
    stripWeakChars ('w' :: '/' :: l) = 'w' :: '/' :: l := by
  simp [stripWeakChars]

theorem stripWeakChars_quote (l : List Char) :
    stripWeakChars ('"' :: l) = '"' :: l := by
  cases l with
  | nil => rfl
  | cons c2 rest => simp [stripWeakChars]

theorem data_quoted (d : String) :
    ("\"" ++ d ++ "\"").data = '"' :: (d.data ++ ['"']) := by
  rw [String.data_append, String.data_append]
  rfl

theorem data_weak_quoted (d : String) :
    ("W/\"" ++ d ++ "\"").data = 'W' :: '/' :: ('"' :: (d.data ++ ['"'])) := by
  rw [String.data_append, String.data_append]
  rfl

theorem data_lower_quoted (d : String) :
    ("w/\"" ++ d ++ "\"").data = 'w' :: '/' :: ('"' :: (d.data ++ ['"'])) := by
  rw [String.data_append, String.data_append]
  rfl

theorem quoted_ne_star (d : String) : ¬(("\"" ++ d ++ "\"") = "*") := by
  intro h
  have hd := congrArg String.data h
  rw [data_quoted] at hd
  simp at hd

theorem quoted_no_comma (d : String) (hnc : ¬(',' ∈ d.data)) :
    ¬(',' ∈ ("\"" ++ d ++ "\"").data) := by
  rw [data_quoted]
  simp [hnc]

theorem stripWeak_quoted (d : String) :
    stripWeak ("\"" ++ d ++ "\"") = "\"" ++ d ++ "\"" := by
  rw [stripWeak, data_quoted, stripWeakChars_quote, ← data_quoted, string_mk_data]

theorem stripWeak_weak_quoted (d : String) :
    stripWeak ("W/\"" ++ d ++ "\"") = "\"" ++ d ++ "\"" := by
  rw [stripWeak, data_weak_quoted, stripWeakChars_weak, ← data_quoted, string_mk_data]

theorem stripWeak_lower_quoted (d : String) :
    stripWeak ("w/\"" ++ d ++ "\"") = "w/\"" ++ d ++ "\"" := by
  rw [stripWeak, data_lower_quoted, stripWeakChars_lower, ← data_lower_quoted, string_mk_data]

theorem string_beq_comm (a b : String) : (a == b) = (b == a) := by
  by_cases hab : a = b
  · rw [hab]
  · rw [beq_eq_false_iff_ne.mpr hab, beq_eq_false_iff_ne.mpr (Ne.symm hab)]

theorem digitChar_ne_comma (n : Nat) : Nat.digitChar n ≠ ',' := by
  by_cases h : n < 16
  · exact (by decide : ∀ m, m < 16 → Nat.digitChar m ≠ ',') n h
  · have h0 : Nat.digitChar n = '*' := by
      unfold Nat.digitChar
      rw [if_neg (by omega : ¬ n = 0), if_neg (by omega : ¬ n = 1), if_neg (by omega : ¬ n = 2), if_neg (by omega : ¬ n = 3), if_neg (by omega : ¬ n = 4), if_neg (by omega : ¬ n = 5), if_neg (by omega : ¬ n = 6), if_neg (by omega : ¬ n = 7), if_neg (by omega : ¬ n = 8), if_neg (by omega : ¬ n = 9), if_neg (by omega : ¬ n = 10), if_neg (by omega : ¬ n = 11), if_neg (by omega : ¬ n = 12), if_neg (by omega : ¬ n = 13), if_neg (by omega : ¬ n = 14), if_neg (by omega : ¬ n = 15)]
    rw [h0]
    decide

theorem toDigitsCore_ne_comma (base fuel n : Nat) (ds : List Char)
    (hds : ∀ c ∈ ds, c ≠ ',') : ∀ c ∈ Nat.toDigitsCore base fuel n ds, c ≠ ',' := by
  induction fuel generalizing n ds with
  | zero =>
    simp only [Nat.toDigitsCore]
    exact hds
  | succ fuel ih =>
    simp only [Nat.toDigitsCore]
    split
    · intro c hc
      rcases List.mem_cons.mp hc with h | h
      · rw [h]
        exact digitChar_ne_comma _
      · exact hds c h
    · refine ih _ _ ?_
      intro c hc
      rcases List.mem_cons.mp hc with h | h
      · rw [h]
        exact digitChar_ne_comma _
      · exact hds c h

theorem hexByte_ne_comma (x : Nat) (c : Char) (hc : c ∈ (hexByte x).data) : c ≠ ',' := by
  have hdat : (hexByte x).data
      = List.replicate (2 - (Nat.toDigits 16 x).asString.length) '0'
        ++ (Nat.toDigits 16 x).asString.data := by
    show (String.mk (List.replicate (2 - (Nat.toDigits 16 x).asString.length) '0')
        ++ (Nat.toDigits 16 x).asString).data = _
    rw [String.data_append]
  rw [hdat] at hc
  rcases List.mem_append.mp hc with h | h
  · rw [List.eq_of_mem_replicate h]
    decide
  · exact toDigitsCore_ne_comma 16 (x + 1) x [] (by simp) c h

theorem hexEncode_no_comma (bytes : List Nat) : ¬(',' ∈ (hexEncode bytes).data) := by
  induction bytes with
  | nil =>
    intro hc
    simp [hexEncode, joinAll] at hc
  | cons b bs ih =>
    intro hc
    have hdat : (hexEncode (b :: bs)).data = (hexByte b).data ++ (hexEncode bs).data := by
      show (hexByte b ++ joinAll (bs.map hexByte)).data = _
      rw [String.data_append]
      rfl
    rw [hdat] at hc
    rcases List.mem_append.mp hc with h | h
    · exact hexByte_ne_comma b ',' h rfl
    · exact ih h

theorem generateDigest_eq_hexEncode (stream : Option (List (List Nat)))
    (g : List Nat → List Nat) (d : String) (hd : generateDigest stream g = some d) :
    ∃ buf, d = hexEncode (g buf) := by
  cases stream with
  | none => simp [generateDigest] at hd
  | some chunks =>
    cases hacc : readChunks chunks none with
    | none => simp [generateDigest, hacc] at hd
    | some acc =>
      simp [generateDigest, hacc] at hd
      exact ⟨acc, hd.symm⟩

/-- Claim C7: a freshly computed digest `d` is emitted exactly as `W/"d"`
when the weak option is true and as `"d"` otherwise — also at the middleware
level, where the ETag header of the result carries `formatTag weak d` — and
the weak-emitted tag still matches the equivalent non-weak client validator
under the 304 comparison (`etagMatches`). -/
theorem c7_emitted_tag_format (weak : Bool) (d : String) (g : List Nat → List Nat)
    (method : String) (inmRaw : Option String) (res : HoaResponse)
    (hpre : getTruthy (headersGet res.headers "etag") = none)
    (hd : generateDigest res.body g = some d) :
    formatTag true d = "W/\"" ++ d ++ "\"" ∧
    formatTag false d = "\"" ++ d ++ "\"" ∧
    headersGet (etagMiddleware RETAINED_304_HEADERS weak (some g) method inmRaw res).headers
        "etag" = some (formatTag weak d) ∧
    etagMatches (formatTag true d) (some (formatTag false d)) method = true := by
  have hnc : ¬(',' ∈ d.data) := by
    obtain ⟨buf, hbuf⟩ := generateDigest_eq_hexEncode res.body g d hd
    rw [hbuf]
    exact hexEncode_no_comma (g buf)
  refine ⟨rfl, rfl, ?_, ?_⟩
  · rw [etagMiddleware_computed _ _ _ _ _ _ _ hpre hd]
    exact headersGet_finalize_etag _ _ _ _ _ (by decide)
  · show (if ("\"" ++ d ++ "\"") = "*" then method == "GET" || method == "HEAD"
        else (splitINM ("\"" ++ d ++ "\"")).any fun t =>
          stripWeak t == stripWeak ("W/\"" ++ d ++ "\"")) = true
    rw [if_neg (quoted_ne_star d), splitINM_no_comma _ (quoted_no_comma d hnc)]
    simp only [List.any_cons, List.any_nil, Bool.or_false]
    rw [stripWeak_quoted, stripWeak_weak_quoted]
    simp

theorem c7_emitted_tag_format_witness :
    formatTag true "ab" = "W/\"" ++ "ab" ++ "\"" ∧
    formatTag false "ab" = "\"" ++ "ab" ++ "\"" ∧
    headersGet (etagMiddleware RETAINED_304_HEADERS true (some fun b => b) "GET" none
        ⟨200, [], some [[171]]⟩).headers "etag" = some (formatTag true "ab") ∧
    etagMatches (formatTag true "ab") (some (formatTag false "ab")) "GET" = true :=
  c7_emitted_tag_format true "ab" (fun b => b) "GET" none ⟨200, [], some [[171]]⟩
    (by decide) (by decide)

/-- Claim C9: weak-prefix stripping removes exactly one leading uppercase
`W/` and is case-sensitive: `W/W/` + t strips to `W/` + t, a lowercase `w/`
prefix is not stripped, and consequently a client validator `w/"d"` never
matches a server ETag `"d"` (for any comma-free digest d). -/
theorem c9_strip_weak_once_case_sensitive (t d method : String)
    (hnc : ¬(',' ∈ d.data)) :
    stripWeak ("W/W/" ++ t) = "W/" ++ t ∧
    stripWeak ("w/" ++ t) = "w/" ++ t ∧
    etagMatches ("\"" ++ d ++ "\"") (some ("w/\"" ++ d ++ "\"")) method = false := by
  refine ⟨?_, ?_, ?_⟩
  · have h1 : ("W/W/" ++ t).data = 'W' :: '/' :: ('W' :: '/' :: t.data) := by
      rw [String.data_append]
      rfl
    have h2 : ("W/" ++ t).data = 'W' :: '/' :: t.data := by
      rw [String.data_append]
      rfl
    rw [stripWeak, h1, stripWeakChars_weak, ← h2, string_mk_data]
  · have h3 : ("w/" ++ t).data = 'w' :: '/' :: t.data := by
      rw [String.data_append]
      rfl
    rw [stripWeak, h3, stripWeakChars_lower, ← h3, string_mk_data]
  · have hstar : ¬(("w/\"" ++ d ++ "\"") = "*") := by
      intro h
      have hd := congrArg String.data h
      rw [data_lower_quoted] at hd
      simp at hd
    have hnc2 : ¬(',' ∈ ("w/\"" ++ d ++ "\"").data) := by
      rw [data_lower_quoted]
      simp [hnc]
    have hne2 : ¬(("w/\"" ++ d ++ "\"") = ("\"" ++ d ++ "\"")) := by
      intro h
      have hd := congrArg String.data h
      rw [data_lower_quoted, data_quoted] at hd
      have hlen := congrArg List.length hd
      simp [List.length_cons, List.length_append] at hlen
      omega
    show (if ("w/\"" ++ d ++ "\"") = "*" then method == "GET" || method == "HEAD"
        else (splitINM ("w/\"" ++ d ++ "\"")).any fun t =>
          stripWeak t == stripWeak ("\"" ++ d ++ "\"")) = false
    rw [if_neg hstar, splitINM_no_comma _ hnc2]
    simp only [List.any_cons, List.any_nil, Bool.or_false]
    rw [stripWeak_quoted, stripWeak_lower_quoted]
    exact beq_eq_false_iff_ne.mpr hne2

theorem c9_strip_weak_once_case_sensitive_witness :
    stripWeak ("W/W/" ++ "x") = "W/" ++ "x" ∧
    stripWeak ("w/" ++ "x") = "w/" ++ "x" ∧
    etagMatches ("\"" ++ "abc" ++ "\"") (some ("w/\"" ++ "abc" ++ "\"")) "GET" = false :=
  c9_strip_weak_once_case_sensitive "x" "abc" "GET" (by decide)

/-- Claim C10: the wildcard treatment applies only when the entire trimmed
If-None-Match value is exactly the single character `*`: for any other
value the method plays no role, and a `*` occurring as one element of a
comma-separated list (here `*, "abc"`) is compared as a literal tag, so the
list matches exactly the response tags whose weak-stripped value is `*` or
`"abc"`, regardless of method. -/
theorem c10_wildcard_whole_header_only (etagVal inm m m2 : String)
    (hstar : ¬(inm = "*")) :
    etagMatches etagVal (some inm) m = etagMatches etagVal (some inm) m2 ∧
    etagMatches etagVal (some "*, \"abc\"") m
      = (stripWeak etagVal == "*" || stripWeak etagVal == "\"abc\"") := by
  constructor
  · show (if inm = "*" then m == "GET" || m == "HEAD"
        else (splitINM inm).any fun t => stripWeak t == stripWeak etagVal)
      = (if inm = "*" then m2 == "GET" || m2 == "HEAD"
        else (splitINM inm).any fun t => stripWeak t == stripWeak etagVal)
    rw [if_neg hstar, if_neg hstar]
  · show (if ("*, \"abc\"" : String) = "*" then m == "GET" || m == "HEAD"
        else (splitINM "*, \"abc\"").any fun t => stripWeak t == stripWeak etagVal)
      = (stripWeak etagVal == "*" || stripWeak etagVal == "\"abc\"")
    rw [if_neg (by decide : ¬("*, \"abc\"" : String) = "*")]
    rw [show splitINM "*, \"abc\"" = ["*", "\"abc\""] from by decide]
    simp only [List.any_cons, List.any_nil, Bool.or_false]
    rw [show stripWeak "*" = "*" from by decide,
        show stripWeak "\"abc\"" = "\"abc\"" from by decide,
        string_beq_comm "*" (stripWeak etagVal),
        string_beq_comm "\"abc\"" (stripWeak etagVal)]

theorem c10_wildcard_whole_header_only_witness :
    etagMatches "\"zz\"" (some "\"q\"") "GET" = etagMatches "\"zz\"" (some "\"q\"") "POST" ∧
    etagMatches "\"zz\"" (some "*, \"abc\"") "GET"
      = (stripWeak "\"zz\"" == "*" || stripWeak "\"zz\"" == "\"abc\"") :=
  c10_wildcard_whole_header_only "\"zz\"" "\"q\"" "GET" "POST" (by decide)

theorem finalize_of_should (retained : List String) (method : String) (inm : Option String)
    (etagVal : String) (res : HoaResponse)
    (h : should304 etagVal inm method res.status = true) :
    finalize retained method inm etagVal res
      = downgrade304 retained { res with headers := headersSet res.headers "etag" etagVal } := by
  show (if should304 etagVal inm method res.status then downgrade304 retained
        { res with headers := headersSet res.headers "etag" etagVal }
      else { res with headers := headersSet res.headers "etag" etagVal })
      = downgrade304 retained { res with headers := headersSet res.headers "etag" etagVal }
  rw [if_pos h]

/-- Claim C1, counterexample to the claim as stated: with response ETag `*`,
If-None-Match `*` and method POST on a 200 response, the claim's flattened
disjunction holds (splitting `*` yields the candidate `*`, which
string-equals the stripped response tag), yet the middleware does not
downgrade — the code handles a whole-header `*` exclusively through the
wildcard rule, which fails for POST. -/
theorem c1_counterexample :
    c1ClaimCond "*" (some "*") "POST" 200 = true ∧
    (etagMiddleware RETAINED_304_HEADERS false none "POST" (some "*")
        ⟨200, [("etag", "*")], none⟩).status = 200 := by
  decide

/-- Claim C1 (amended): the middleware's 304 guard `should304` (evaluated on
the trimmed If-None-Match) holds iff the status is in [200,300), the header
is present, and — when its trimmed value is exactly `*` — the method is GET
or HEAD, while for any other present value some comma-separated candidate
equals the response tag after weak-prefix stripping of both sides. In
particular an absent If-None-Match never downgrades and non-2xx statuses are
never downgraded. (The claim as stated used an inclusive disjunction, giving
the candidate-comparison branch also to a whole-header `*`.) -/
theorem c1_downgrade_condition_amended (etagVal : String) (inmRaw : Option String)
    (method : String) (status : Nat) :
    should304 etagVal (inmRaw.map jsTrim) method status = true ↔
      ((200 ≤ status ∧ status < 300) ∧ ∃ inm, inmRaw = some inm ∧
        (if jsTrim inm = "*" then method = "GET" ∨ method = "HEAD"
         else ∃ t ∈ splitINM (jsTrim inm), stripWeak t = stripWeak etagVal)) := by
  cases inmRaw with
  | none => simp [should304, etagMatches]
  | some raw =>
    show (decide (200 ≤ status) && decide (status < 300) &&
        (if jsTrim raw = "*" then method == "GET" || method == "HEAD"
         else (splitINM (jsTrim raw)).any fun t => stripWeak t == stripWeak etagVal)) = true
      ↔ _
    by_cases hstar : jsTrim raw = "*"
    · rw [if_pos hstar]
      simp [hstar, Bool.and_eq_true, decide_eq_true_eq, Bool.or_eq_true, beq_iff_eq,
        and_assoc]
    · rw [if_neg hstar]
      simp [hstar, Bool.and_eq_true, decide_eq_true_eq, List.any_eq_true, beq_iff_eq,
        and_assoc]

/-- Claim C2, counterexample to the claim as stated: with the custom
retained set ['Date'] (which does not contain etag) a matching
If-None-Match downgrades the response to 304 and the retention loop deletes
the ETag header — so the ETag header is not always present in the resulting
304 response. -/
theorem c2_counterexample :
    (etagMiddleware (resolveRetained (some ["Date"])) false none "GET" (some "\"x\"")
        ⟨200, [("etag", "\"x\""), ("date", "d"), ("content-type", "text/plain")], none⟩).status
      = 304 ∧
    headersGet (etagMiddleware (resolveRetained (some ["Date"])) false none "GET"
        (some "\"x\"")
        ⟨200, [("etag", "\"x\""), ("date", "d"), ("content-type", "text/plain")],
          none⟩).headers "etag" = none := by
  decide

/-- Claim C2 (amended): whenever the middleware performs a 304 downgrade —
the resolved tag `e` is either a pre-existing truthy ETag header or the
formatted tag of a freshly computed digest, and the 304 guard holds — every
header of the pre-downgrade response (its headers after `set('ETag', e)`)
whose name is in the configured retained set keeps its original value, every
header whose name is not in the set is absent, the body is replaced by null
and the status set to 304; the ETag header is present in the result exactly
when the retained set contains `etag` — always the case for the default set,
but not guaranteed for custom sets. -/
theorem c2_downgrade_retention_amended (retained : List String) (weak : Bool)
    (g : Option (List Nat → List Nat)) (method : String) (inmRaw : Option String)
    (res : HoaResponse) (e : String)
    (hdet : (headersGet res.headers "etag" = some e ∧ ¬(e = "")) ∨
      (getTruthy (headersGet res.headers "etag") = none ∧
        ∃ g0, g = some g0 ∧ ∃ d, generateDigest res.body g0 = some d ∧ e = formatTag weak d))
    (hcond : should304 e (inmRaw.map jsTrim) method res.status = true) :
    (etagMiddleware retained weak g method inmRaw res).status = 304 ∧
    (etagMiddleware retained weak g method inmRaw res).body = none ∧
    (∀ n v, retained.contains n = true →
      headersGet (headersSet res.headers "etag" e) n = some v →
      headersGet (etagMiddleware retained weak g method inmRaw res).headers n = some v) ∧
    (∀ n, retained.contains n = false →
      headersGet (etagMiddleware retained weak g method inmRaw res).headers n = none) ∧
    (retained.contains "etag" = true →
      headersGet (etagMiddleware retained weak g method inmRaw res).headers "etag" = some e) := by
  have hmid : etagMiddleware retained weak g method inmRaw res
      = finalize retained method (inmRaw.map jsTrim) e res := by
    rcases hdet with ⟨hpre, hne⟩ | ⟨hpre, g0, hg, d, hd, he⟩
    · exact etagMiddleware_preexisting _ _ _ _ _ _ _ hpre hne
    · rw [hg, he]
      exact etagMiddleware_computed _ _ _ _ _ _ _ hpre hd
  rw [hmid, finalize_of_should _ _ _ _ _ hcond]
  unfold downgrade304
  refine ⟨rfl, rfl, ?_, ?_, ?_⟩
  · intro n v hn hv
    rw [headersGet_filter_of_contains _ _ _ hn]
    exact hv
  · intro n hn
    exact headersGet_filter_of_not_contains _ _ _ hn
  · intro hn
    rw [headersGet_filter_of_contains _ _ _ hn]
    exact headersGet_set_self _ _ _

theorem c2_downgrade_retention_amended_witness :
    (etagMiddleware RETAINED_304_HEADERS false (some fun b => b) "GET" (some "\"ab\"")
        ⟨200, [("date", "d"), ("x-custom", "1")], some [[171]]⟩).status = 304 ∧
    (etagMiddleware RETAINED_304_HEADERS false (some fun b => b) "GET" (some "\"ab\"")
        ⟨200, [("date", "d"), ("x-custom", "1")], some [[171]]⟩).body = none ∧
    headersGet (etagMiddleware RETAINED_304_HEADERS false (some fun b => b) "GET"
        (some "\"ab\"")
        ⟨200, [("date", "d"), ("x-custom", "1")], some [[171]]⟩).headers "date"
      = some "d" ∧
    headersGet (etagMiddleware RETAINED_304_HEADERS false (some fun b => b) "GET"
        (some "\"ab\"")
        ⟨200, [("date", "d"), ("x-custom", "1")], some [[171]]⟩).headers "x-custom"
      = none ∧
    headersGet (etagMiddleware RETAINED_304_HEADERS false (some fun b => b) "GET"
        (some "\"ab\"")
        ⟨200, [("date", "d"), ("x-custom", "1")], some [[171]]⟩).headers "etag"
      = some "\"ab\"" := by
  have h := c2_downgrade_retention_amended RETAINED_304_HEADERS false (some fun b => b)
    "GET" (some "\"ab\"") ⟨200, [("date", "d"), ("x-custom", "1")], some [[171]]⟩
    "\"ab\""
    (Or.inr ⟨by decide, fun b => b, rfl, "ab", by decide, by decide⟩)
    (by decide)
  exact ⟨h.1, h.2.1, h.2.2.1 "date" "d" (by decide) (by decide),
    h.2.2.2.1 "x-custom" (by decide), h.2.2.2.2 (by decide)⟩

/-- Claim C3, counterexample to the claim as stated: the claim quantifies
over every stream (every chunk list), but for the stream that delivers no
chunks the code returns null rather than the hex-encoded hash of the empty
concatenation — here the hash function returns [0], whose encoding would be
"00". -/
theorem c3_counterexample :
    generateDigest (some []) (fun _ => [0]) = none ∧
    hexEncode ((fun _ : List Nat => [0]) (List.flatten ([] : List (List Nat)))) = "00" := by
  constructor
  · rfl
  · decide

/-- Claim C3 (amended): for every stream that delivers at least one chunk
and every hash function, generateDigest invokes the hash on the in-order
concatenation of all chunks and returns it encoded as two lowercase hex
characters per output byte, concatenated in byte order; when the hash output
consists of bytes (< 256) the digest string's length is exactly twice the
output's byte length. -/
theorem c3_digest_of_concatenation_amended (chunks : List (List Nat))
    (g : List Nat → List Nat) (hne : ¬(chunks = []))
    (hbytes : ∀ b ∈ g chunks.flatten, b < 256) :
    generateDigest (some chunks) g = some (hexEncode (g chunks.flatten)) ∧
    (hexEncode (g chunks.flatten)).length = 2 * (g chunks.flatten).length :=
  ⟨generateDigest_of_ne_nil chunks g hne, hexEncode_length _ hbytes⟩

theorem c3_digest_of_concatenation_amended_witness :
    generateDigest (some [[171], [205]]) (fun b => b)
      = some (hexEncode ((fun b : List Nat => b) (List.flatten [[171], [205]]))) ∧
    (hexEncode ((fun b : List Nat => b) (List.flatten [[171], [205]]))).length
      = 2 * ((fun b : List Nat => b) (List.flatten [[171], [205]])).length :=
  c3_digest_of_concatenation_amended [[171], [205]] (fun b => b) (by decide) (by decide)

/-- Claim C4, counterexample to the claim as stated: a stream delivering a
single zero-length chunk carries zero total bytes, yet generateDigest does
invoke the hash function (here constantly [0]) on the empty buffer and
returns its digest "00" instead of None — the accumulated empty buffer is a
truthy value in JS, so only the no-chunk case is mapped to null. -/
theorem c4_counterexample :
    generateDigest (some [[]]) (fun _ => [0]) = some "00" := by
  decide

/-- Claim C4 (amended): generateDigest returns None exactly for an absent
stream and for a stream that delivers no chunks at all, and in those two
cases the result does not depend on the hash function (it is never
invoked); a stream of only zero-length chunks instead hashes the empty
buffer. -/
theorem c4_none_for_absent_or_chunkless (g h : List Nat → List Nat) :
    generateDigest none g = none ∧
    generateDigest (some []) g = none ∧
    generateDigest none g = generateDigest none h ∧
    generateDigest (some []) g = generateDigest (some []) h :=
  ⟨rfl, rfl, rfl, rfl⟩

end HoaEtag

